import Mathlib

/-!
Verification of the IsoFlicker isochronic-tone synthesis engine.

This file gives a shallow embedding, in Lean 4, of the numeric core of the
IsoFlicker repository and proves the behavioural claims made by its
specification against that embedding.

Embedding conventions:
* Python floats are modelled as exact numbers: `Rat` where the code only does
  field arithmetic and comparisons (curve times/values, durations,
  frequencies), `Real` where transcendental functions (sin, exp, log) appear.
* numpy arrays are modelled as `List Real` (or `List Rat` cast into `Real`).
* A Python call that raises an exception (ValueError from numpy/scipy,
  ZeroDivisionError) is modelled as `none` of an `Option` result.
* Randomness (the white-noise carrier) is modelled by passing the realised
  noise sequence as an explicit function argument.
-/

namespace IsoFlicker

/-- Python `int(q)`: truncation toward zero (`int(8268.75) = 8268`,
`int(-0.5) = 0`).  For nonnegative `q` this is the floor. -/
def pyInt (q : ℚ) : ℤ :=
  if q < 0 then -(⌊-q⌋) else ⌊q⌋

/-- Model of `numpy.linspace a b n` with the default `endpoint=True`: the `k`-th entry
is `a + (b - a) * k / (n - 1)`; for `n = 1` the single entry is `a`. -/
noncomputable def np_linspace (a b : ℝ) (n k : ℕ) : ℝ :=
  if n ≤ 1 then a else a + (b - a) * k / ((n : ℝ) - 1)

/-- Entry `k` of `numpy.linspace 0 1 n` (used by the trapezoid ramps); kept in
`Rat` because the code only ever does field arithmetic with it. -/
def linspace01 (n k : ℕ) : ℚ :=
  if n ≤ 1 then 0 else (k : ℚ) / ((n : ℚ) - 1)

/-- Entry `k` of `numpy.linspace 1 0 n` (the trapezoid ramp-down). -/
def linspace10 (n k : ℕ) : ℚ :=
  if n ≤ 1 then 1 else 1 - (k : ℚ) / ((n : ℚ) - 1)

/-- Model of `numpy.tile` for 1-D arrays: `r` concatenated copies of the list. -/
def listTile (l : List ℝ) : ℕ → List ℝ
  | 0 => []
  | r + 1 => l ++ listTile l r

/-- Model of `numpy.zeros n` as a list. -/
noncomputable def npZeros (n : ℕ) : List ℝ := List.replicate n 0

/-- Model of `np.max(np.abs(l))` over a list, with `0` as the base of the fold (every
entry of `np.abs` is nonnegative, so for nonempty lists this is the true
maximum; the empty case, where numpy raises, is excluded by hypotheses where
it matters). -/
noncomputable def peakAbs (l : List ℝ) : ℝ :=
  (l.map (fun x => |x|)).foldr max 0

/-- Model of `scipy.signal.square x duty`: `+1` on the first `duty` fraction of each
`2 * pi` period, `-1` on the rest (scipy computes `tmod = mod(x, 2*pi)` and
compares `tmod < duty * 2 * pi`, which is `fract (x / (2*pi)) < duty`). -/
noncomputable def scipy_square (x duty : ℝ) : ℝ :=
  if Int.fract (x / (2 * Real.pi)) < duty then 1 else -1

/-- Model of `scipy.signal.sawtooth x width`: rises from `-1` to `1` over the first
`width` fraction of each `2 * pi` period, then falls back to `-1`
(`width = 1` is the plain ramp, `width = 1/2` the symmetric triangle). -/
noncomputable def scipy_sawtooth (x width : ℝ) : ℝ :=
  let u := Int.fract (x / (2 * Real.pi))
  if u < width then 2 * u / width - 1 else (width + 1 - 2 * u) / (1 - width)

/-- The `WaveformType` enum of `advanced_isochronic_generator.py`. -/
inductive WaveformType where
  | sine
  | square
  | triangle
  | sawtooth
  | noise
deriving DecidableEq, Repr

/-- The `ModulationType` enum of `advanced_isochronic_generator.py`. -/
inductive ModulationType where
  | square
  | sine
  | trapezoid
  | gaussian
deriving DecidableEq, Repr

/-- Lower band edge the noise branch of `generate_carrier` passes to
`scipy.signal.butter`: `max(0.01, (frequency - 20) / (sample_rate / 2))`. -/
def butter_band_low (sample_rate : ℕ) (frequency : ℚ) : ℚ :=
  max (1 / 100) ((frequency - 20) / ((sample_rate : ℚ) / 2))

/-- Upper band edge the noise branch of `generate_carrier` passes to
`scipy.signal.butter`: `min(0.99, (frequency + 20) / (sample_rate / 2))`. -/
def butter_band_high (sample_rate : ℕ) (frequency : ℚ) : ℚ :=
  min (99 / 100) ((frequency + 20) / ((sample_rate : ℚ) / 2))

/-- Embedding of `IsochronicToneGenerator.generate_carrier` from
`src/advanced_isochronic_generator.py` (lines 113-159; the `Backup` copy is
identical).  `num_samples = int(sample_rate * duration)`; a negative
`num_samples` makes `np.linspace` raise (modelled `none`); sample `k` of the
time array `np.linspace(0, duration, num_samples, endpoint=False)` is
`duration * k / num_samples`.  The noise branch band-pass filters fresh white
noise with `scipy.signal.filtfilt` and peak-normalizes it; the filtered,
normalized draw is modelled by the explicit argument `noise` (the code is
not seedable).  Two validations of that branch raise `ValueError`:
`scipy.signal.butter` requires valid band edges — every edge strictly inside
`(0, 1)` and the lower strictly below the upper; since the code clamps the
edges to `[0.01, _]` and `[_, 0.99]`, validity reduces exactly to
`butter_band_low < butter_band_high` (this rejects both carriers near or
above Nyquist, where the lower edge reaches `1`, and low carriers whose
clamped lower edge `0.01` meets or exceeds the upper edge) — and
`scipy.signal.filtfilt` requires the input to be longer than its pad length
`3 * max(len(a), len(b)) = 27` for the 4th-order band-pass used here. -/
noncomputable def generate_carrier (sample_rate : ℕ) (waveform_type : WaveformType)
    (frequency duration : ℚ) (amplitude : ℝ) (noise : ℕ → ℝ) : Option (List ℝ) :=
  let m : ℤ := pyInt ((sample_rate : ℚ) * duration)
  if m < 0 then none else
  let n : ℕ := m.toNat
  let t : ℕ → ℝ := fun k => (duration : ℝ) * k / n
  match waveform_type with
  | .sine =>
      some ((List.range n).map fun k =>
        amplitude * Real.sin (2 * Real.pi * (frequency : ℝ) * t k))
  | .square =>
      some ((List.range n).map fun k =>
        amplitude * scipy_square (2 * Real.pi * (frequency : ℝ) * t k) (1 / 2))
  | .triangle =>
      some ((List.range n).map fun k =>
        amplitude * scipy_sawtooth (2 * Real.pi * (frequency : ℝ) * t k) (1 / 2))
  | .sawtooth =>
      some ((List.range n).map fun k =>
        amplitude * scipy_sawtooth (2 * Real.pi * (frequency : ℝ) * t k) 1)
  | .noise =>
      if butter_band_low sample_rate frequency <
          butter_band_high sample_rate frequency then
        if n ≤ 27 then none
        else some ((List.range n).map fun k => amplitude * noise k)
      else none

/-- Value of the trapezoid envelope of `generate_modulation` at sample `j`
(`src/advanced_isochronic_generator.py` lines 190-220).  The loop tiles
`[0, num_samples)` in blocks of `period_samples`; within the block starting at
`i0 = period_samples * (j / period_samples)` of actual length
`period_len = min (i0 + period_samples) n - i0`, the block is a triangle
(ramp halves) when `period_len <= 2 * ramp_samples`, else
ramp-up / hold at 1 / ramp-down. -/
def trapVal (period_samples ramp_samples n j : ℕ) : ℚ :=
  let i0 := period_samples * (j / period_samples)
  let pl := min (i0 + period_samples) n - i0
  let off := j - i0
  if pl ≤ 2 * ramp_samples then
    let h := pl / 2
    if off < h then linspace01 h off else linspace10 (pl - h) (off - h)
  else
    if off < ramp_samples then linspace01 ramp_samples off
    else if off < pl - ramp_samples then 1
    else linspace10 ramp_samples (off - (pl - ramp_samples))

/-- Value of the gaussian envelope of `generate_modulation` at sample `j`
(`src/advanced_isochronic_generator.py` lines 222-241).  Each block of
`period_samples` samples is overwritten with a bell centred at
`i0 + period_samples / 2` with `sigma = period_samples * duty_cycle / 6`;
blocks are disjoint, so sample `j` keeps the value from its own block. -/
noncomputable def gaussVal (period_samples : ℕ) (duty_cycle : ℚ) (j : ℕ) : ℝ :=
  let center : ℕ := period_samples * (j / period_samples) + period_samples / 2
  let sigma : ℝ := (period_samples : ℝ) * (duty_cycle : ℝ) / 6
  Real.exp (-(1 / 2) * (((j : ℝ) - (center : ℝ)) / sigma) ^ 2)

/-- Embedding of `IsochronicToneGenerator.generate_modulation` from
`src/advanced_isochronic_generator.py` (lines 161-244).
`num_samples = int(sample_rate * duration)` (negative makes `np.linspace`
raise, modelled `none`).  For the trapezoid and gaussian kinds
`period_samples = int(sample_rate / frequency)`: `frequency = 0` raises
ZeroDivisionError; `period_samples = 0` makes `range(0, n, 0)` raise; a
negative `period_samples` leaves the zero envelope untouched (empty `range`);
a negative `ramp_samples = int(period_samples * ramp_percent / 100)` makes
`np.linspace(0, 1, ramp_samples)` raise on the first trapezoid period (so
whenever the loop runs at all, i.e. `0 < n`); and a zero `sigma`
(`duty_cycle = 0`) raises on the first gaussian sample. -/
noncomputable def generate_modulation (sample_rate : ℕ) (mod_type : ModulationType)
    (frequency duration duty_cycle ramp_percent : ℚ) : Option (List ℝ) :=
  let m : ℤ := pyInt ((sample_rate : ℚ) * duration)
  if m < 0 then none else
  let n : ℕ := m.toNat
  let t : ℕ → ℝ := fun k => (duration : ℝ) * k / n
  match mod_type with
  | .square =>
      some ((List.range n).map fun k =>
        0.5 * (1 + scipy_square (2 * Real.pi * (frequency : ℝ) * t k) (duty_cycle : ℝ)))
  | .sine =>
      some ((List.range n).map fun k =>
        0.5 * (1 + Real.sin (2 * Real.pi * (frequency : ℝ) * t k)))
  | .trapezoid =>
      if frequency = 0 then none else
      let ps : ℤ := pyInt ((sample_rate : ℚ) / frequency)
      if ps = 0 then none
      else if ps < 0 then some (npZeros n)
      else
        let psn : ℕ := ps.toNat
        let rampZ : ℤ := pyInt ((psn : ℚ) * ramp_percent / 100)
        if rampZ < 0 ∧ 0 < n then none
        else some ((List.range n).map fun j =>
          ((trapVal psn rampZ.toNat n j : ℚ) : ℝ))
  | .gaussian =>
      if frequency = 0 then none else
      let ps : ℤ := pyInt ((sample_rate : ℚ) / frequency)
      if ps = 0 then none
      else if ps < 0 then some (npZeros n)
      else if duty_cycle = 0 ∧ 0 < n then none
      else some ((List.range n).map fun j => gaussVal ps.toNat duty_cycle j)

/-- Embedding of `IsochronicToneGenerator.generate_frequency_transition` from
`src/Backup/advanced_isochronic_generator.py` (lines 133-175), as the map
from sample index to instantaneous frequency.  `num_samples` is
`int(sample_rate * duration)`; all five kinds index `np.linspace` arrays of
that length (default inclusive endpoint), and an unknown string falls back to
linear.  `np.log10` is `Real.logb 10`, `np.logspace` raises ten to the
log-spaced exponents. -/
noncomputable def generate_frequency_transition (sample_rate : ℕ)
    (start_freq end_freq duration : ℚ) (transition_type : String) (k : ℕ) : ℝ :=
  let n : ℕ := (pyInt ((sample_rate : ℚ) * duration)).toNat
  if transition_type = "linear" then
    np_linspace (start_freq : ℝ) (end_freq : ℝ) n k
  else if transition_type = "exponential" then
    (10 : ℝ) ^ (np_linspace (Real.logb 10 (max 0.1 (start_freq : ℝ)))
      (Real.logb 10 (end_freq : ℝ)) n k)
  else if transition_type = "logarithmic" then
    Real.exp (np_linspace (Real.log (max 1 (start_freq : ℝ)))
      (Real.log (max 1 (end_freq : ℝ))) n k)
  else if transition_type = "quadratic" then
    let s := np_linspace 0 1 n k
    if start_freq < end_freq then
      (start_freq : ℝ) + ((end_freq : ℝ) - (start_freq : ℝ)) * s ^ 2
    else
      (start_freq : ℝ) + ((end_freq : ℝ) - (start_freq : ℝ)) * (1 - (1 - s) ^ 2)
  else if transition_type = "sigmoid" then
    let s := np_linspace (-6) 6 n k
    (start_freq : ℝ) + ((end_freq : ℝ) - (start_freq : ℝ)) * (1 / (1 + Real.exp (-s)))
  else
    np_linspace (start_freq : ℝ) (end_freq : ℝ) n k

/-- The phase-accumulation loop of
`IsochronicToneGenerator.generate_advanced_isochronic`
(`src/Backup/advanced_isochronic_generator.py` lines 212-214):
`phase[0] = 0` and `phase[i] = phase[i-1] + 2*pi*f[i-1]/sample_rate`. -/
noncomputable def phase_accum (sample_rate : ℕ) (f : ℕ → ℝ) : ℕ → ℝ
  | 0 => 0
  | i + 1 => phase_accum sample_rate f i + 2 * Real.pi * f i / (sample_rate : ℝ)

/-- The modulation envelope computed inside
`IsochronicToneGenerator.generate_advanced_isochronic` for the square
modulation kind (`src/Backup/advanced_isochronic_generator.py` lines
194-218), as a map from sample index to envelope value.  With
`start_freq == end_freq` the code delegates to `generate_modulation`
(`0.5 * (1 + scipy.signal.square(2*pi*f*t, duty))` over
`t = np.linspace(0, duration, num_samples, endpoint=False)`); otherwise it
accumulates phase over the `generate_frequency_transition` trajectory and
takes `0.5 * (1 + np.sign(np.sin(phase)))`. -/
noncomputable def generate_advanced_isochronic_modulation_square (sample_rate : ℕ)
    (start_freq end_freq duration : ℚ) (transition_type : String)
    (duty_cycle : ℚ) (k : ℕ) : ℝ :=
  let n : ℕ := (pyInt ((sample_rate : ℚ) * duration)).toNat
  if start_freq = end_freq then
    0.5 * (1 + scipy_square (2 * Real.pi * (start_freq : ℝ) * ((duration : ℝ) * k / n))
      (duty_cycle : ℝ))
  else
    0.5 * (1 + Real.sign (Real.sin (phase_accum sample_rate
      (generate_frequency_transition sample_rate start_freq end_freq duration
        transition_type) k)))

/-- A `ControlPoint` of the curve editors: a time (seconds) and a value. -/
structure ControlPoint where
  time : ℚ
  value : ℚ
deriving DecidableEq, Repr

/-- The linear-interpolation scan of `TrackCurve.get_value_at_time`
(`src/sine_editor.py` lines 79-86, identically `src/sine_editor_with_xml.py`
and `integrated_isoflicker.py`): walk consecutive pairs and return
`p1.value + (t - p1.time) / (p2.time - p1.time) * (p2.value - p1.value)` for
the first pair with `p1.time <= t <= p2.time`. -/
def interpScan : List ControlPoint → ℚ → Option ℚ
  | p1 :: p2 :: rest, t =>
      if p1.time ≤ t ∧ t ≤ p2.time then
        some (p1.value + (t - p1.time) / (p2.time - p1.time) * (p2.value - p1.value))
      else interpScan (p2 :: rest) t
  | _, _ => none

/-- Embedding of `TrackCurve.get_value_at_time` (`src/sine_editor.py` lines 67-88; the
copies in `sine_editor_with_xml.py` lines 495-579 and
`integrated_isoflicker.py` are identical): default value for an empty list;
first value for `t` at or before the first point; last value for `t` at or
after the last point; otherwise the scan, whose fall-through also returns the
default value. -/
def get_value_at_time (control_points : List ControlPoint) (default_value : ℚ)
    (t : ℚ) : ℚ :=
  match control_points with
  | [] => default_value
  | p :: rest =>
      if t ≤ p.time then p.value
      else if ((p :: rest).getLast (by simp)).time ≤ t then
        ((p :: rest).getLast (by simp)).value
      else (interpScan (p :: rest) t).getD default_value

/-- The overwrite pass of `TrackCurve.add_point`: the first point whose time
is within `0.01` of the requested time gets its value replaced. -/
def overwriteFirst : List ControlPoint → ℚ → ℚ → List ControlPoint
  | [], _, _ => []
  | p :: rest, t, v =>
      if |p.time - t| < 1 / 100 then { p with value := v } :: rest
      else p :: overwriteFirst rest t v

/-- Embedding of `TrackCurve.add_point` (`src/sine_editor.py` lines 46-58; identical in
`sine_editor_with_xml.py` lines 399-447 and `integrated_isoflicker.py` lines
436-448): if some existing point lies within `0.01` s of the requested time,
overwrite its value; otherwise append the new point and re-sort by time
(Python `list.sort` is a stable merge sort). -/
def add_point (control_points : List ControlPoint) (t v : ℚ) : List ControlPoint :=
  if control_points.any (fun p => |p.time - t| < 1 / 100) then
    overwriteFirst control_points t v
  else
    (control_points ++ [ControlPoint.mk t v]).mergeSort
      (fun p q => decide (p.time ≤ q.time))

/-- The peak-normalization step at the end of `SinePreset.generate_audio`
(`src/sine_editor_with_xml.py` lines 2220-2223, identical in
`integrated_isoflicker.py`): after the chunks are concatenated and the fades
applied, `max_amp = np.max(np.abs(output))`; if it exceeds `0.9` the buffer
is scaled by `0.9 / max_amp`, otherwise it is returned untouched. -/
noncomputable def generate_audio_normalize (output : List ℝ) : List ℝ :=
  if 0.9 < peakAbs output then output.map (fun x => x * (0.9 / peakAbs output))
  else output

/-- Embedding of `IsochronicToneGenerator.mix_with_background`
(`src/Backup/advanced_isochronic_generator.py` lines 262-286) for 1-D
backgrounds.  A background shorter than the tone is tiled
`int(ceil(tone_len / background_len))` times and truncated (`background_len
= 0` raises ZeroDivisionError, modelled `none`); one longer is truncated; the
mix is `tone + background * background_volume`; `np.max` on an empty mix
raises (modelled `none`); a peak above `1.0` divides the whole mix by the
peak. -/
noncomputable def mix_with_background (isochronic_tone background : List ℝ)
    (background_volume : ℝ) : Option (List ℝ) :=
  let tl := isochronic_tone.length
  let bl := background.length
  let adjusted : Option (List ℝ) :=
    if bl < tl then
      if bl = 0 then none
      else some ((listTile background (⌈(tl : ℚ) / (bl : ℚ)⌉).toNat).take tl)
    else if tl < bl then some (background.take tl)
    else some background
  match adjusted with
  | none => none
  | some bg =>
      let mixed := List.zipWith (fun x y => x + y * background_volume)
        isochronic_tone bg
      if mixed = [] then none
      else if 1 < peakAbs mixed then some (mixed.map (fun x => x / peakAbs mixed))
      else some mixed

/-- Shape-level model of `mix_with_background` for 1-D and 2-D (frames x
channels) backgrounds, following numpy's shape semantics statement by
statement: `len(background)` is the first dimension; `np.tile(a, r)` on a
2-D array tiles the last axis, giving shape `(rows, cols * r)`; slicing
`[:tl]` acts on the first axis; adding the 1-D tone of shape `(tl,)`
broadcasts against the background along trailing axes (compatible when the
last dimensions are equal or one of them is `1`; a dimension of size `1`
stretches to the other operand's size, so the result size is the other
dimension — in particular broadcasting `1` against `0` gives `0`);
`np.max` raises on an empty result.  Returns the shape of the mixed buffer,
`none` on any raised exception. -/
def mix_with_background_shape (tl : ℕ) (background_shape : List ℕ) : Option (List ℕ) :=
  let adjusted : Option (List ℕ) :=
    match background_shape with
    | [r] =>
        if r < tl then
          if r = 0 then none
          else some [min (r * (⌈(tl : ℚ) / (r : ℚ)⌉).toNat) tl]
        else if tl < r then some [tl] else some [r]
    | [r, c] =>
        if r < tl then
          if r = 0 then none
          else some [min r tl, c * (⌈(tl : ℚ) / (r : ℚ)⌉).toNat]
        else if tl < r then some [tl, c] else some [r, c]
    | _ => none
  match adjusted with
  | none => none
  | some [m] =>
      if m = tl ∨ m = 1 ∨ tl = 1 then
        let d := if m = 1 then tl else if tl = 1 then m else tl
        if d = 0 then none else some [d]
      else none
  | some [a, b] =>
      if b = tl ∨ b = 1 ∨ tl = 1 then
        let d := if b = 1 then tl else if tl = 1 then b else tl
        if a = 0 ∨ d = 0 then none else some [a, d]
      else none
  | some _ => none

/-- Modelled from the spec (section 4.7 of the specification, a step absent
from the source function): convert a multi-channel background to mono by
averaging its channels first, then length-adjust, mix and normalize exactly
as `mix_with_background` does.  Shape level, for comparison with
`mix_with_background_shape`. -/
def mix_with_background_spec_monofirst_shape (tl : ℕ)
    (background_shape : List ℕ) : Option (List ℕ) :=
  match background_shape with
  | [r] => mix_with_background_shape tl [r]
  | [_, c] =>
      match background_shape with
      | r :: _ => if c = 0 then none else mix_with_background_shape tl [r]
      | _ => none
  | _ => none

/-- The cache key built by `IsochronicToneGenerator._get_cache_key`
(`src/advanced_isochronic_generator.py` lines 246-264): the full parameter
tuple. -/
structure CacheKey where
  duration : ℚ
  carrier_freq : ℚ
  entrainment_freq : ℚ
  volume : ℚ
  sample_rate : ℕ
  carrier_type : WaveformType
  modulation_type : ModulationType
  duty_cycle : ℚ
deriving DecidableEq, Repr

/-- Embedding of `IsochronicToneGenerator._get_cache_key`. -/
def get_cache_key (duration carrier_freq entrainment_freq volume : ℚ)
    (sample_rate : ℕ) (carrier_type : WaveformType) (modulation_type : ModulationType)
    (duty_cycle : ℚ) : CacheKey :=
  CacheKey.mk duration carrier_freq entrainment_freq volume sample_rate carrier_type
    modulation_type duty_cycle

/-- The mutable state of an `IsochronicToneGenerator` instance: its sample
rate and its segment cache (a Python dict, modelled as an association list
whose keys are distinct because entries are only added on a miss). -/
structure GenState where
  sample_rate : ℕ
  cache : List (CacheKey × List ℝ)

/-- Embedding of `IsochronicToneGenerator.generate_tone_segment`
(`src/advanced_isochronic_generator.py` lines 266-312): build the cache key,
return the stored buffer on a hit; on a miss set `self.sample_rate`, render
`carrier * envelope * volume` with carrier amplitude `0.8`, store and return
it.  An exception from the render (modelled `none`) propagates after
`self.sample_rate` was already updated and caches nothing. -/
noncomputable def generate_tone_segment (s : GenState)
    (duration carrier_freq entrainment_freq volume : ℚ) (sample_rate : ℕ)
    (carrier_type : WaveformType) (modulation_type : ModulationType)
    (duty_cycle : ℚ) (noise : ℕ → ℝ) : Option (List ℝ) × GenState :=
  let key := get_cache_key duration carrier_freq entrainment_freq volume
    sample_rate carrier_type modulation_type duty_cycle
  match s.cache.find? (fun kv : CacheKey × List ℝ => decide (kv.1 = key)) with
  | some kv => (some kv.2, s)
  | none =>
      let s1 : GenState := { s with sample_rate := sample_rate }
      match generate_carrier sample_rate carrier_type carrier_freq duration 0.8 noise,
          generate_modulation sample_rate modulation_type entrainment_freq duration
            duty_cycle 10 with
      | some carrier, some envelope =>
          let output := List.zipWith (fun c e => c * e * (volume : ℝ)) carrier envelope
          (some output, { s1 with cache := (key, output) :: s1.cache })
      | _, _ => (none, s1)

/-- Decidable sufficient-and-necessary condition for the render inside
`generate_tone_segment` to succeed (no numpy/scipy exception): the sample
count is nonnegative; a noise carrier needs valid `butter` band edges
(`butter_band_low < butter_band_high`) and more samples than the `filtfilt`
pad length `27`; trapezoid and gaussian modulation need
`int(sample_rate / entrainment_freq)` nonzero (and a nonzero frequency), and
a nonempty gaussian envelope needs a nonzero duty cycle.  (The trapezoid
ramp needs no clause: `generate_tone_segment` always calls
`generate_modulation` with the default `ramp_percent = 10`, whose
`ramp_samples` is never negative.) -/
def renderOk (duration carrier_freq entrainment_freq : ℚ) (sample_rate : ℕ)
    (carrier_type : WaveformType) (modulation_type : ModulationType)
    (duty_cycle : ℚ) : Bool :=
  let m := pyInt ((sample_rate : ℚ) * duration)
  0 ≤ m &&
    (carrier_type = WaveformType.noise → 27 < m : Bool) &&
    (carrier_type = WaveformType.noise →
      butter_band_low sample_rate carrier_freq <
        butter_band_high sample_rate carrier_freq : Bool) &&
    ((modulation_type = ModulationType.trapezoid ∨
        modulation_type = ModulationType.gaussian) →
      entrainment_freq ≠ 0 ∧ pyInt ((sample_rate : ℚ) / entrainment_freq) ≠ 0 : Bool) &&
    (modulation_type = ModulationType.gaussian →
      (duty_cycle = 0 → ¬ (0 < pyInt ((sample_rate : ℚ) / entrainment_freq) ∧ 0 < m)) : Bool)

/-! ### Helper lemmas -/

theorem pyInt_of_nonneg {q : ℚ} (h : 0 ≤ q) : pyInt q = ⌊q⌋ := by
  unfold pyInt
  rw [if_neg (not_lt.mpr h)]

theorem pyInt_nonneg {q : ℚ} (h : 0 ≤ q) : 0 ≤ pyInt q := by
  rw [pyInt_of_nonneg h]
  exact Int.floor_nonneg.mpr h

theorem one_le_pyInt {q : ℚ} (h : 1 ≤ q) : 1 ≤ pyInt q := by
  rw [pyInt_of_nonneg (by linarith)]
  exact Int.le_floor.mpr (by exact_mod_cast h)

theorem pyInt_eq_zero_of_small {q : ℚ} (h0 : q ≤ 0) (h1 : -1 < q) : pyInt q = 0 := by
  unfold pyInt
  split
  · have h2 : (0 : ℚ) ≤ -q := by linarith
    have h3 : -q < 1 := by linarith
    have : ⌊-q⌋ = 0 := Int.floor_eq_zero_iff.mpr ⟨h2, h3⟩
    omega
  · have hq : q = 0 := le_antisymm h0 (not_lt.mp (by assumption))
    simp [hq]

theorem scipy_square_eq_or (x duty : ℝ) :
    scipy_square x duty = 1 ∨ scipy_square x duty = -1 := by
  unfold scipy_square
  split
  · exact Or.inl rfl
  · exact Or.inr rfl

/-! ### Claim C1 -/

/-- Claim C1: with `start_freq != end_freq`, `generate_advanced_isochronic`
builds its modulation from the accumulated phase satisfying `phase[0] = 0`
and `phase[i] = phase[i-1] + 2*pi*f[i-1]/sample_rate` over the
`generate_frequency_transition` trajectory `f`, and for square modulation the
envelope is `0.5 * (1 + sign (sin phase))` at every sample. -/
theorem C1_phase_accumulated_square_envelope (sample_rate : ℕ)
    (start_freq end_freq duration : ℚ) (transition_type : String) (duty_cycle : ℚ)
    (h : start_freq ≠ end_freq) :
    phase_accum sample_rate
      (generate_frequency_transition sample_rate start_freq end_freq duration
        transition_type) 0 = 0 ∧
    (∀ i : ℕ,
      phase_accum sample_rate
        (generate_frequency_transition sample_rate start_freq end_freq duration
          transition_type) (i + 1) =
      phase_accum sample_rate
        (generate_frequency_transition sample_rate start_freq end_freq duration
          transition_type) i +
        2 * Real.pi * generate_frequency_transition sample_rate start_freq end_freq
          duration transition_type i / (sample_rate : ℝ)) ∧
    (∀ k : ℕ,
      generate_advanced_isochronic_modulation_square sample_rate start_freq end_freq
        duration transition_type duty_cycle k =
      0.5 * (1 + Real.sign (Real.sin (phase_accum sample_rate
        (generate_frequency_transition sample_rate start_freq end_freq duration
          transition_type) k)))) := by
  refine ⟨rfl, fun i => rfl, fun k => ?_⟩
  unfold generate_advanced_isochronic_modulation_square
  rw [if_neg h]

/-- Witness for C1 at a concrete sweep. -/
theorem C1_phase_accumulated_square_envelope_witness :
    (10 : ℚ) ≠ 20 ∧
    (phase_accum 44100
      (generate_frequency_transition 44100 10 20 60 "linear") 0 = 0 ∧
    (∀ i : ℕ,
      phase_accum 44100
        (generate_frequency_transition 44100 10 20 60 "linear") (i + 1) =
      phase_accum 44100
        (generate_frequency_transition 44100 10 20 60 "linear") i +
        2 * Real.pi *
          generate_frequency_transition 44100 10 20 60 "linear" i / (44100 : ℝ)) ∧
    (∀ k : ℕ,
      generate_advanced_isochronic_modulation_square 44100 10 20 60 "linear"
        (1 / 2) k =
      0.5 * (1 + Real.sign (Real.sin (phase_accum 44100
        (generate_frequency_transition 44100 10 20 60 "linear") k))))) :=
  ⟨by norm_num,
    C1_phase_accumulated_square_envelope 44100 10 20 60 "linear" (1 / 2)
      (by norm_num)⟩

/-! ### Claim C9 -/

/-- Claim C9 counterexample: at duration `-1` s the sample count
`int(44100 * -1) = -44100` is negative, so `np.linspace` raises ValueError
(modelled `none`) — the code errors instead of returning an empty buffer. -/
theorem C9_counterexample :
    generate_carrier 44100 WaveformType.sine 440 (-1) 1 (fun _ => 0) = none := by
  unfold generate_carrier
  rw [if_pos]
  unfold pyInt
  norm_num

/-- Claim C9 amended: for every waveform kind except noise, a zero duration
(more generally, any duration with `-1 < sample_rate * duration <= 0`)
returns an empty buffer; durations making `int(sample_rate * duration)`
negative raise instead. -/
theorem C9_amended_zero_duration_empty (sample_rate : ℕ) (wt : WaveformType)
    (freq dur : ℚ) (amp : ℝ) (ns : ℕ → ℝ) (hwt : wt ≠ WaveformType.noise)
    (h0 : (sample_rate : ℚ) * dur ≤ 0) (h1 : -1 < (sample_rate : ℚ) * dur) :
    generate_carrier sample_rate wt freq dur amp ns = some [] := by
  unfold generate_carrier
  rw [pyInt_eq_zero_of_small h0 h1]
  cases wt with
  | noise => exact absurd rfl hwt
  | sine => simp
  | square => simp
  | triangle => simp
  | sawtooth => simp

/-- Witness for the amended C9 at duration `0`. -/
theorem C9_amended_zero_duration_empty_witness :
    WaveformType.sine ≠ WaveformType.noise ∧ (44100 : ℚ) * 0 ≤ 0 ∧
      (-1 : ℚ) < (44100 : ℚ) * 0 ∧
      generate_carrier 44100 WaveformType.sine 440 0 1 (fun _ => 0) = some [] :=
  ⟨by decide, by norm_num, by norm_num,
    C9_amended_zero_duration_empty 44100 WaveformType.sine 440 0 1 (fun _ => 0)
      (by decide) (by norm_num) (by norm_num)⟩

/-! ### Claim C4 -/

/-- Claim C4 counterexample: at `duration = 3/16` s and the default
`sample_rate = 44100`, `sample_rate * duration = 8268.75`; the code's
`int(...)` truncates to `8268` samples while the claimed
`round(sample_rate * duration)` is `8269`. -/
theorem C4_counterexample :
    (generate_carrier 44100 WaveformType.sine 100 (3 / 16) 1 (fun _ => 0)).map
      List.length = some 8268 ∧
    round ((44100 : ℚ) * (3 / 16)) = 8269 := by
  constructor
  · have hpy : pyInt (((44100 : ℕ) : ℚ) * (3 / 16)) = 8268 := by
      rw [pyInt_of_nonneg (by norm_num)]
      norm_num
    simp only [generate_carrier, hpy]
    norm_num
    rfl
  · rw [round_eq]
    norm_num

/-- Claim C4 amended: the returned buffers have length
`int(sample_rate * duration)` — Python truncation, the floor for positive
durations — not `round(sample_rate * duration)`; generation succeeds for
positive frequency and duration given the kind guards (a noise carrier needs
valid `butter` band edges and more than `27` samples, trapezoid modulation
needs a nonnegative ramp percent, trapezoid/gaussian modulation need
`int(sample_rate / frequency) >= 1`, gaussian needs a nonzero duty cycle). -/
theorem C4_amended_length_is_truncation (sr : ℕ) (wt : WaveformType)
    (mt : ModulationType) (freq dur duty rp : ℚ) (amp : ℝ) (ns : ℕ → ℝ)
    (hdur : 0 < dur) (hfreq : 0 < freq) (hrp : 0 ≤ rp)
    (hnoise : wt = WaveformType.noise → 27 < pyInt ((sr : ℚ) * dur) ∧
      butter_band_low sr freq < butter_band_high sr freq)
    (hps : mt = ModulationType.trapezoid ∨ mt = ModulationType.gaussian →
      0 < pyInt ((sr : ℚ) / freq))
    (hduty : mt = ModulationType.gaussian → duty ≠ 0) :
    ∃ lc lm, generate_carrier sr wt freq dur amp ns = some lc ∧
      generate_modulation sr mt freq dur duty rp = some lm ∧
      lc.length = (pyInt ((sr : ℚ) * dur)).toNat ∧
      lm.length = (pyInt ((sr : ℚ) * dur)).toNat := by
  have hm : 0 ≤ pyInt ((sr : ℚ) * dur) :=
    pyInt_nonneg (mul_nonneg (by positivity) hdur.le)
  have hmlt : ¬ pyInt ((sr : ℚ) * dur) < 0 := not_lt.mpr hm
  have hc : ∃ lc, generate_carrier sr wt freq dur amp ns = some lc ∧
      lc.length = (pyInt ((sr : ℚ) * dur)).toNat := by
    cases wt with
    | noise =>
        obtain ⟨h27, hband⟩ := hnoise rfl
        simp only [generate_carrier]
        rw [if_neg hmlt, if_pos hband, if_neg (by omega)]
        exact ⟨_, rfl, by simp⟩
    | sine =>
        simp only [generate_carrier]
        rw [if_neg hmlt]
        exact ⟨_, rfl, by simp⟩
    | square =>
        simp only [generate_carrier]
        rw [if_neg hmlt]
        exact ⟨_, rfl, by simp⟩
    | triangle =>
        simp only [generate_carrier]
        rw [if_neg hmlt]
        exact ⟨_, rfl, by simp⟩
    | sawtooth =>
        simp only [generate_carrier]
        rw [if_neg hmlt]
        exact ⟨_, rfl, by simp⟩
  have hmod : ∃ lm, generate_modulation sr mt freq dur duty rp = some lm ∧
      lm.length = (pyInt ((sr : ℚ) * dur)).toNat := by
    cases mt with
    | square =>
        simp only [generate_modulation]
        rw [if_neg hmlt]
        exact ⟨_, rfl, by simp⟩
    | sine =>
        simp only [generate_modulation]
        rw [if_neg hmlt]
        exact ⟨_, rfl, by simp⟩
    | trapezoid =>
        have hp := hps (Or.inl rfl)
        have hramp : 0 ≤ pyInt (((pyInt ((sr : ℚ) / freq)).toNat : ℚ) * rp / 100) :=
          pyInt_nonneg (div_nonneg (mul_nonneg (Nat.cast_nonneg _) hrp)
            (by norm_num))
        simp only [generate_modulation]
        rw [if_neg hmlt, if_neg hfreq.ne', if_neg (by omega), if_neg (by omega),
          if_neg (by rintro ⟨hc, _⟩; omega)]
        exact ⟨_, rfl, by simp⟩
    | gaussian =>
        have hp := hps (Or.inr rfl)
        have hd := hduty rfl
        simp only [generate_modulation]
        rw [if_neg hmlt, if_neg hfreq.ne', if_neg (by omega), if_neg (by omega),
          if_neg (by simp [hd])]
        exact ⟨_, rfl, by simp⟩
  obtain ⟨lc, hc1, hc2⟩ := hc
  obtain ⟨lm, hm1, hm2⟩ := hmod
  exact ⟨lc, lm, hc1, hm1, hc2, hm2⟩

/-- Witness for the amended C4 at sine carrier, square modulation, 1 s. -/
theorem C4_amended_length_is_truncation_witness :
    (0 : ℚ) < 1 ∧ (0 : ℚ) < 100 ∧
      (∃ lc lm,
        generate_carrier 44100 WaveformType.sine 100 1 1 (fun _ => 0) = some lc ∧
        generate_modulation 44100 ModulationType.square 100 1 (1 / 2) 10 = some lm ∧
        lc.length = (pyInt ((44100 : ℚ) * 1)).toNat ∧
        lm.length = (pyInt ((44100 : ℚ) * 1)).toNat) :=
  ⟨by norm_num, by norm_num,
    C4_amended_length_is_truncation 44100 WaveformType.sine ModulationType.square
      100 1 (1 / 2) 10 1 (fun _ => 0) (by norm_num) (by norm_num) (by norm_num)
      (fun h => nomatch h) (by rintro (h | h) <;> cases h)
      (fun h => nomatch h)⟩

/-! ### Claim C3 -/

theorem linspace01_mem (n k : ℕ) (hk : k < n) :
    0 ≤ linspace01 n k ∧ linspace01 n k ≤ 1 := by
  unfold linspace01
  split
  · exact ⟨le_refl 0, zero_le_one⟩
  · rename_i hn
    have hn2 : 2 ≤ n := by omega
    have hpos : (0 : ℚ) < (n : ℚ) - 1 := by
      have : (2 : ℚ) ≤ (n : ℚ) := by exact_mod_cast hn2
      linarith
    constructor
    · exact div_nonneg (by positivity) hpos.le
    · rw [div_le_one hpos]
      have : (k : ℚ) + 1 ≤ (n : ℚ) := by exact_mod_cast hk
      linarith

theorem linspace10_mem (n k : ℕ) (hk : k < n) :
    0 ≤ linspace10 n k ∧ linspace10 n k ≤ 1 := by
  unfold linspace10
  split
  · exact ⟨zero_le_one, le_refl 1⟩
  · rename_i hn
    have hn2 : 2 ≤ n := by omega
    have hpos : (0 : ℚ) < (n : ℚ) - 1 := by
      have : (2 : ℚ) ≤ (n : ℚ) := by exact_mod_cast hn2
      linarith
    have hk1 : (k : ℚ) + 1 ≤ (n : ℚ) := by exact_mod_cast hk
    have hd0 : 0 ≤ (k : ℚ) / ((n : ℚ) - 1) := div_nonneg (by positivity) hpos.le
    have hd1 : (k : ℚ) / ((n : ℚ) - 1) ≤ 1 := by
      rw [div_le_one hpos]
      linarith
    constructor
    · linarith
    · linarith

theorem trapVal_mem (ps ramp n j : ℕ) (hps : 0 < ps) (hj : j < n) :
    0 ≤ trapVal ps ramp n j ∧ trapVal ps ramp n j ≤ 1 := by
  have hdm := Nat.div_add_mod j ps
  have hml : j % ps < ps := Nat.mod_lt _ hps
  simp only [trapVal]
  split
  · split
    · rename_i hoff
      exact linspace01_mem _ _ hoff
    · exact linspace10_mem _ _ (by omega)
  · split
    · rename_i hoff
      exact linspace01_mem _ _ hoff
    · split
      · exact ⟨zero_le_one, le_refl 1⟩
      · exact linspace10_mem _ _ (by omega)

theorem gaussVal_mem (ps : ℕ) (duty : ℚ) (j : ℕ) :
    0 ≤ gaussVal ps duty j ∧ gaussVal ps duty j ≤ 1 := by
  unfold gaussVal
  constructor
  · exact (Real.exp_pos _).le
  · rw [Real.exp_le_one_iff]
    have := sq_nonneg (((j : ℝ) - ((ps * (j / ps) + ps / 2 : ℕ) : ℝ)) /
      ((ps : ℝ) * (duty : ℝ) / 6))
    nlinarith

/-- Claim C3: for all four modulation kinds, pulse frequencies in
`[0.5, 40]` Hz and durations in `[0.1, 600]` s (at the default sample rate,
duty cycle `0.5` and ramp percent `10`), every sample of the envelope
returned by `generate_modulation` lies in `[0, 1]`. -/
theorem C3_modulation_in_unit_interval (mt : ModulationType) (freq dur : ℚ)
    (h1 : 1 / 2 ≤ freq) (h2 : freq ≤ 40) (h3 : 1 / 10 ≤ dur) (h4 : dur ≤ 600) :
    ∀ env, generate_modulation 44100 mt freq dur (1 / 2) 10 = some env →
      ∀ x ∈ env, 0 ≤ x ∧ x ≤ 1 := by
  have hfreq : 0 < freq := by linarith
  have hdur : (0 : ℚ) ≤ dur := by linarith
  have hmlt : ¬ pyInt (((44100 : ℕ) : ℚ) * dur) < 0 :=
    not_lt.mpr (pyInt_nonneg (mul_nonneg (by norm_num) hdur))
  have hps1 : 1 ≤ pyInt (((44100 : ℕ) : ℚ) / freq) := by
    apply one_le_pyInt
    rw [one_le_div hfreq]
    push_cast
    linarith
  intro env henv x hx
  cases mt with
  | square =>
      simp only [generate_modulation] at henv
      rw [if_neg hmlt] at henv
      obtain rfl := (Option.some.inj henv)
      obtain ⟨j, hjmem, rfl⟩ := List.mem_map.mp hx
      rcases scipy_square_eq_or (2 * Real.pi * (freq : ℝ) *
          ((dur : ℝ) * j / ((pyInt (((44100 : ℕ) : ℚ) * dur)).toNat : ℝ)))
          (((1 : ℚ) / 2 : ℚ) : ℝ) with h | h <;>
        rw [h] <;> constructor <;> norm_num
  | sine =>
      simp only [generate_modulation] at henv
      rw [if_neg hmlt] at henv
      obtain rfl := (Option.some.inj henv)
      obtain ⟨j, hjmem, rfl⟩ := List.mem_map.mp hx
      have hs1 := Real.neg_one_le_sin (2 * Real.pi * (freq : ℝ) *
        ((dur : ℝ) * j / ((pyInt (((44100 : ℕ) : ℚ) * dur)).toNat : ℝ)))
      have hs2 := Real.sin_le_one (2 * Real.pi * (freq : ℝ) *
        ((dur : ℝ) * j / ((pyInt (((44100 : ℕ) : ℚ) * dur)).toNat : ℝ)))
      constructor <;> [linarith; linarith]
  | trapezoid =>
      have hramp : 0 ≤ pyInt (((pyInt (((44100 : ℕ) : ℚ) / freq)).toNat : ℚ) *
          10 / 100) :=
        pyInt_nonneg (by positivity)
      simp only [generate_modulation] at henv
      rw [if_neg hmlt, if_neg hfreq.ne', if_neg (by omega), if_neg (by omega),
        if_neg (by rintro ⟨hc, _⟩; omega)] at henv
      obtain rfl := (Option.some.inj henv)
      obtain ⟨j, hjmem, rfl⟩ := List.mem_map.mp hx
      have hj : j < (pyInt (((44100 : ℕ) : ℚ) * dur)).toNat := List.mem_range.mp hjmem
      have hb := trapVal_mem (pyInt (((44100 : ℕ) : ℚ) / freq)).toNat
        ((pyInt (((pyInt (((44100 : ℕ) : ℚ) / freq)).toNat : ℚ) * 10 / 100)).toNat)
        ((pyInt (((44100 : ℕ) : ℚ) * dur)).toNat) j (by omega) hj
      constructor
      · exact_mod_cast hb.1
      · exact_mod_cast hb.2
  | gaussian =>
      simp only [generate_modulation] at henv
      rw [if_neg hmlt, if_neg hfreq.ne', if_neg (by omega), if_neg (by omega),
        if_neg (by norm_num)] at henv
      obtain rfl := (Option.some.inj henv)
      obtain ⟨j, hjmem, rfl⟩ := List.mem_map.mp hx
      exact gaussVal_mem _ _ _

/-- Witness for C3 with sine modulation at 10 Hz for 1 s. -/
theorem C3_modulation_in_unit_interval_witness :
    (1 / 2 : ℚ) ≤ 10 ∧ (10 : ℚ) ≤ 40 ∧ (1 / 10 : ℚ) ≤ 1 ∧ (1 : ℚ) ≤ 600 ∧
      (∀ env, generate_modulation 44100 ModulationType.sine 10 1 (1 / 2) 10 =
          some env → ∀ x ∈ env, 0 ≤ x ∧ x ≤ 1) :=
  ⟨by norm_num, by norm_num, by norm_num, by norm_num,
    C3_modulation_in_unit_interval ModulationType.sine 10 1 (by norm_num)
      (by norm_num) (by norm_num) (by norm_num)⟩

/-! ### Claim C6 -/

theorem peakAbs_nonneg (l : List ℝ) : 0 ≤ peakAbs l := by
  unfold peakAbs
  induction l with
  | nil => simp
  | cons a l ih =>
      simp only [List.map_cons, List.foldr_cons]
      exact le_max_of_le_right ih

theorem abs_le_peakAbs (l : List ℝ) : ∀ x ∈ l, |x| ≤ peakAbs l := by
  unfold peakAbs
  induction l with
  | nil => simp
  | cons a l ih =>
      intro x hx
      simp only [List.map_cons, List.foldr_cons]
      rcases List.mem_cons.mp hx with rfl | hx
      · exact le_max_left _ _
      · exact le_max_of_le_right (ih x hx)

theorem peakAbs_map_mul (l : List ℝ) (c : ℝ) (hc : 0 ≤ c) :
    peakAbs (l.map fun x => x * c) = peakAbs l * c := by
  unfold peakAbs
  induction l with
  | nil => simp
  | cons a l ih =>
      simp only [List.map_cons, List.foldr_cons] at ih ⊢
      rw [abs_mul, abs_of_nonneg hc, ih, max_mul_of_nonneg _ _ hc]

/-- Claim C6: in the chunked renderer `SinePreset.generate_audio`, the final
normalization step leaves a buffer whose peak is at most `0.9` untouched, and
scales a buffer whose peak exceeds `0.9` by `0.9 / peak`, so that the
returned peak is exactly `0.9`; the buffer is never scaled up. -/
theorem C6_peak_normalization (output : List ℝ) (hne : output ≠ []) :
    (0.9 < peakAbs output →
      peakAbs (generate_audio_normalize output) = 0.9) ∧
    (peakAbs output ≤ 0.9 → generate_audio_normalize output = output) := by
  constructor
  · intro h
    have hpos : (0 : ℝ) < peakAbs output := lt_trans (by norm_num) h
    unfold generate_audio_normalize
    rw [if_pos h, peakAbs_map_mul _ _ (by positivity)]
    field_simp
  · intro h
    unfold generate_audio_normalize
    rw [if_neg (not_lt.mpr h)]

/-- Witness for C6 on the buffer `[1, -2]` (peak `2 > 0.9`). -/
theorem C6_peak_normalization_witness :
    [(1 : ℝ), -2] ≠ [] ∧ (0.9 : ℝ) < peakAbs [(1 : ℝ), -2] ∧
      peakAbs (generate_audio_normalize [(1 : ℝ), -2]) = 0.9 := by
  have hpk : peakAbs [(1 : ℝ), -2] = 2 := by
    unfold peakAbs
    simp only [List.map_cons, List.map_nil, List.foldr_cons, List.foldr_nil]
    rw [abs_one, abs_of_nonpos (by norm_num : (-2 : ℝ) ≤ 0)]
    norm_num [max_eq_left, max_eq_right]
  refine ⟨by simp, by rw [hpk]; norm_num, ?_⟩
  exact (C6_peak_normalization [(1 : ℝ), -2] (by simp)).1 (by rw [hpk]; norm_num)

/-! ### Claim C7 -/

theorem listTile_length (l : List ℝ) (r : ℕ) :
    (listTile l r).length = r * l.length := by
  induction r with
  | zero => simp [listTile]
  | succ r ih => simp [listTile, ih, Nat.succ_mul, Nat.add_comm]

theorem le_ceilDiv_mul (tl bl : ℕ) (hbl : 0 < bl) :
    tl ≤ (⌈(tl : ℚ) / (bl : ℚ)⌉).toNat * bl := by
  have hblq : (0 : ℚ) < (bl : ℚ) := by exact_mod_cast hbl
  have hc := Int.le_ceil ((tl : ℚ) / (bl : ℚ))
  have hc0 : 0 ≤ ⌈(tl : ℚ) / (bl : ℚ)⌉ :=
    Int.ceil_nonneg (div_nonneg (by positivity) hblq.le)
  have hcast : ((⌈(tl : ℚ) / (bl : ℚ)⌉.toNat : ℕ) : ℚ) = (⌈(tl : ℚ) / (bl : ℚ)⌉ : ℚ) := by
    exact_mod_cast Int.toNat_of_nonneg hc0
  have : (tl : ℚ) ≤ (⌈(tl : ℚ) / (bl : ℚ)⌉ : ℚ) * (bl : ℚ) := by
    rw [div_le_iff hblq] at hc
    exact hc
  have : (tl : ℚ) ≤ ((⌈(tl : ℚ) / (bl : ℚ)⌉.toNat : ℕ) : ℚ) * (bl : ℚ) := by
    rw [hcast]
    exact this
  exact_mod_cast this

/-- Claim C7: for a nonempty background strictly shorter than the tone,
`mix_with_background` tiles and truncates the background to exactly the tone
length, mixes as `tone + background * background_volume`, and the returned
mix never exceeds amplitude `1.0`: a raw peak above `1.0` is divided out, a
raw peak at most `1.0` is returned unscaled. -/
theorem C7_mix_shorter_background (tone bg : List ℝ) (v : ℝ)
    (hbg : bg ≠ []) (hlen : bg.length < tone.length) :
    ∃ out, mix_with_background tone bg v = some out ∧
      out.length = tone.length ∧
      (∀ x ∈ out, |x| ≤ 1) ∧
      ((peakAbs (List.zipWith (fun a b => a + b * v) tone
          ((listTile bg (⌈(tone.length : ℚ) / (bg.length : ℚ)⌉).toNat).take
            tone.length)) ≤ 1 →
        out = List.zipWith (fun a b => a + b * v) tone
          ((listTile bg (⌈(tone.length : ℚ) / (bg.length : ℚ)⌉).toNat).take
            tone.length)) ∧
       (1 < peakAbs (List.zipWith (fun a b => a + b * v) tone
          ((listTile bg (⌈(tone.length : ℚ) / (bg.length : ℚ)⌉).toNat).take
            tone.length)) →
        out = (List.zipWith (fun a b => a + b * v) tone
          ((listTile bg (⌈(tone.length : ℚ) / (bg.length : ℚ)⌉).toNat).take
            tone.length)).map
          (fun x => x / peakAbs (List.zipWith (fun a b => a + b * v) tone
            ((listTile bg (⌈(tone.length : ℚ) / (bg.length : ℚ)⌉).toNat).take
              tone.length))))) := by
  have hbl : 0 < bg.length := List.length_pos.mpr hbg
  set r := (⌈(tone.length : ℚ) / (bg.length : ℚ)⌉).toNat with hr
  set tiled := (listTile bg r).take tone.length with htiled
  have htlen : tiled.length = tone.length := by
    rw [htiled, List.length_take, listTile_length, min_eq_left]
    rw [hr]
    exact le_ceilDiv_mul _ _ hbl
  set raw := List.zipWith (fun a b => a + b * v) tone tiled with hraw
  have hrawlen : raw.length = tone.length := by
    rw [hraw, List.length_zipWith, htlen, min_self]
  have hrawne : raw ≠ [] := by
    intro h
    rw [h] at hrawlen
    simp at hrawlen
    omega
  simp only [mix_with_background]
  rw [if_pos hlen, if_neg (by omega : ¬ bg.length = 0)]
  dsimp only
  simp only [← hr, ← htiled, ← hraw]
  rw [if_neg hrawne]
  by_cases hpk : 1 < peakAbs raw
  · rw [if_pos hpk]
    refine ⟨_, rfl, by simp [hrawlen], ?_, ?_, ?_⟩
    · intro x hx
      obtain ⟨y, hy, rfl⟩ := List.mem_map.mp hx
      have h1 := abs_le_peakAbs raw y hy
      have hpos : (0 : ℝ) < peakAbs raw := lt_trans one_pos hpk
      rw [abs_div, abs_of_nonneg hpos.le, div_le_one hpos]
      exact h1
    · intro h
      exact absurd hpk (not_lt.mpr h)
    · intro _
      rfl
  · rw [if_neg hpk]
    refine ⟨_, rfl, hrawlen, ?_, fun _ => rfl, fun h => absurd h hpk⟩
    intro x hx
    have h1 := abs_le_peakAbs raw x hx
    have h2 := not_lt.mp hpk
    linarith

/-- Witness for C7: tone `[0, 0, 3]`, background `[1, 1]`, volume `1`. -/
theorem C7_mix_shorter_background_witness :
    [(1 : ℝ), 1] ≠ [] ∧
      ([(1 : ℝ), 1] : List ℝ).length < ([(0 : ℝ), 0, 3] : List ℝ).length ∧
      (∃ out, mix_with_background [(0 : ℝ), 0, 3] [(1 : ℝ), 1] 1 = some out ∧
        out.length = ([(0 : ℝ), 0, 3] : List ℝ).length ∧
        (∀ x ∈ out, |x| ≤ 1) ∧
        ((peakAbs (List.zipWith (fun a b => a + b * 1) [(0 : ℝ), 0, 3]
            ((listTile [(1 : ℝ), 1]
              (⌈(([(0 : ℝ), 0, 3] : List ℝ).length : ℚ) /
                ((([(1 : ℝ), 1] : List ℝ).length : ℚ))⌉).toNat).take
              ([(0 : ℝ), 0, 3] : List ℝ).length)) ≤ 1 →
          out = List.zipWith (fun a b => a + b * 1) [(0 : ℝ), 0, 3]
            ((listTile [(1 : ℝ), 1]
              (⌈(([(0 : ℝ), 0, 3] : List ℝ).length : ℚ) /
                ((([(1 : ℝ), 1] : List ℝ).length : ℚ))⌉).toNat).take
              ([(0 : ℝ), 0, 3] : List ℝ).length)) ∧
         (1 < peakAbs (List.zipWith (fun a b => a + b * 1) [(0 : ℝ), 0, 3]
            ((listTile [(1 : ℝ), 1]
              (⌈(([(0 : ℝ), 0, 3] : List ℝ).length : ℚ) /
                ((([(1 : ℝ), 1] : List ℝ).length : ℚ))⌉).toNat).take
              ([(0 : ℝ), 0, 3] : List ℝ).length)) →
          out = (List.zipWith (fun a b => a + b * 1) [(0 : ℝ), 0, 3]
            ((listTile [(1 : ℝ), 1]
              (⌈(([(0 : ℝ), 0, 3] : List ℝ).length : ℚ) /
                ((([(1 : ℝ), 1] : List ℝ).length : ℚ))⌉).toNat).take
              ([(0 : ℝ), 0, 3] : List ℝ).length)).map
            (fun x => x / peakAbs (List.zipWith (fun a b => a + b * 1)
              [(0 : ℝ), 0, 3]
              ((listTile [(1 : ℝ), 1]
                (⌈(([(0 : ℝ), 0, 3] : List ℝ).length : ℚ) /
                  ((([(1 : ℝ), 1] : List ℝ).length : ℚ))⌉).toNat).take
                ([(0 : ℝ), 0, 3] : List ℝ).length)))))) :=
  ⟨by simp, by simp,
    C7_mix_shorter_background [(0 : ℝ), 0, 3] [(1 : ℝ), 1] 1 (by simp) (by simp)⟩

/-! ### Claim C2 -/

theorem time_le_getLast_of_mem (l : List ControlPoint) (hne : l ≠ [])
    (hp : List.Pairwise (fun a b : ControlPoint => a.time < b.time) l) :
    ∀ x ∈ l, x.time ≤ (l.getLast hne).time := by
  intro x hx
  obtain ⟨i, hi, rfl⟩ := List.mem_iff_getElem.mp hx
  rw [List.getLast_eq_getElem]
  have hlen : 0 < l.length := List.length_pos.mpr hne
  rcases Nat.lt_or_ge i (l.length - 1) with hlt | hge
  · exact (List.pairwise_iff_getElem.mp hp i (l.length - 1) hi (by omega) hlt).le
  · have : i = l.length - 1 := by omega
    subst this
    exact le_refl _

theorem head_time_le_of_mem (p₀ : ControlPoint) (l : List ControlPoint)
    (hp : List.Pairwise (fun a b : ControlPoint => a.time < b.time) (p₀ :: l)) :
    ∀ x ∈ p₀ :: l, p₀.time ≤ x.time := by
  intro x hx
  rcases List.mem_cons.mp hx with rfl | hx
  · exact le_refl _
  · exact ((List.pairwise_cons.mp hp).1 x hx).le

theorem interpScan_bracket (t : ℚ) :
    ∀ (i : ℕ) (l : List ControlPoint) (p q : ControlPoint)
      (rest : List ControlPoint),
      List.Pairwise (fun a b : ControlPoint => a.time < b.time) l →
      l.drop i = p :: q :: rest →
      p.time < t → t ≤ q.time →
      interpScan l t =
        some (p.value + (t - p.time) / (q.time - p.time) * (q.value - p.value)) := by
  intro i
  induction i with
  | zero =>
      intro l p q rest _hp hd hlt hle
      rw [List.drop_zero] at hd
      subst hd
      unfold interpScan
      rw [if_pos ⟨hlt.le, hle⟩]
  | succ i ih =>
      intro l p q rest hp hd hlt hle
      match l with
      | [] => simp at hd
      | [a] => simp at hd
      | a :: b :: l₂ =>
          have hd' : (b :: l₂).drop i = p :: q :: rest := hd
          have hp' : List.Pairwise (fun a b : ControlPoint => a.time < b.time)
              (b :: l₂) := hp.of_cons
          have hpmem : p ∈ b :: l₂ := by
            have : p ∈ (b :: l₂).drop i := by
              rw [hd']
              exact List.mem_cons_self _ _
            exact List.mem_of_mem_drop this
          have hble : b.time ≤ p.time := head_time_le_of_mem b l₂ hp' p hpmem
          have hguard : ¬ (a.time ≤ t ∧ t ≤ b.time) := by
            rintro ⟨_, hb⟩
            linarith
          unfold interpScan
          rw [if_neg hguard]
          exact ih (b :: l₂) p q rest hp' hd' hlt hle

/-- Claim C2: for a nonempty, strictly time-sorted curve,
`get_value_at_time` returns the first value at or before the first point's
time, the last value at or after the last point's time, the linear
interpolation over the bracketing pair strictly inside an interval, and at
an interior control point's own time exactly that point's value (hence
`v1` for three collinear points `(t0,v0),(t1,v1),(t2,v2)`). -/
theorem C2_get_value_at_time (pts : List ControlPoint) (dv t : ℚ)
    (hne : pts ≠ [])
    (hp : List.Pairwise (fun a b : ControlPoint => a.time < b.time) pts) :
    (t ≤ (pts.head hne).time →
      get_value_at_time pts dv t = (pts.head hne).value) ∧
    ((pts.getLast hne).time ≤ t →
      get_value_at_time pts dv t = (pts.getLast hne).value) ∧
    (∀ (i : ℕ) (p q : ControlPoint) (rest : List ControlPoint),
      pts.drop i = p :: q :: rest → p.time < t → t < q.time →
      get_value_at_time pts dv t =
        p.value + (t - p.time) / (q.time - p.time) * (q.value - p.value)) ∧
    (∀ (i : ℕ) (p q : ControlPoint) (rest : List ControlPoint),
      pts.drop i = p :: q :: rest → p.time < t → t = q.time →
      t < (pts.getLast hne).time →
      get_value_at_time pts dv t = q.value) := by
  match pts, hne with
  | p₀ :: tl, hne =>
  have hhead : (p₀ :: tl).head hne = p₀ := rfl
  refine ⟨?_, ?_, ?_, ?_⟩
  · intro h
    simp only [get_value_at_time]
    rw [if_pos (by rw [hhead] at h; exact h)]
    rw [hhead]
  · intro h
    simp only [get_value_at_time]
    by_cases h0 : t ≤ p₀.time
    · rw [if_pos h0]
      cases tl with
      | nil => rfl
      | cons q tl₂ =>
          exfalso
          have hlast :
              ((p₀ :: q :: tl₂).getLast hne).time ≤ p₀.time := le_trans h h0
          have hmem : (p₀ :: q :: tl₂).getLast hne ∈ q :: tl₂ := by
            rw [List.getLast_cons (by simp)]
            exact List.getLast_mem _
          have := (List.pairwise_cons.mp hp).1 _ hmem
          linarith
    · rw [if_neg h0, if_pos h]
  · intro i p q rest hd hlt hlt2
    have hpm : p ∈ p₀ :: tl := by
      have : p ∈ (p₀ :: tl).drop i := by
        rw [hd]
        exact List.mem_cons_self _ _
      exact List.mem_of_mem_drop this
    have hqm : q ∈ p₀ :: tl := by
      have : q ∈ (p₀ :: tl).drop i := by
        rw [hd]
        exact List.mem_cons_of_mem _ (List.mem_cons_self _ _)
      exact List.mem_of_mem_drop this
    have h0 : ¬ t ≤ p₀.time := by
      have := head_time_le_of_mem p₀ tl hp p hpm
      push_neg
      linarith
    have hql : q.time ≤ ((p₀ :: tl).getLast hne).time :=
      time_le_getLast_of_mem _ hne hp q hqm
    have hl : ¬ ((p₀ :: tl).getLast hne).time ≤ t := by
      push_neg
      linarith
    simp only [get_value_at_time]
    rw [if_neg h0, if_neg hl,
      interpScan_bracket t i (p₀ :: tl) p q rest hp hd hlt hlt2.le]
    rfl
  · intro i p q rest hd hlt heq hlast
    have hpm : p ∈ p₀ :: tl := by
      have : p ∈ (p₀ :: tl).drop i := by
        rw [hd]
        exact List.mem_cons_self _ _
      exact List.mem_of_mem_drop this
    have h0 : ¬ t ≤ p₀.time := by
      have := head_time_le_of_mem p₀ tl hp p hpm
      push_neg
      linarith
    have hl : ¬ ((p₀ :: tl).getLast hne).time ≤ t := not_le.mpr hlast
    simp only [get_value_at_time]
    rw [if_neg h0, if_neg hl,
      interpScan_bracket t i (p₀ :: tl) p q rest hp hd hlt heq.le]
    have hne2 : q.time - p.time ≠ 0 := by
      rw [heq] at hlt
      intro hcontra
      have : p.time = q.time := by linarith
      linarith
    rw [Option.getD_some, heq, div_self hne2]
    ring

/-- Witness for C2 on the collinear three-point curve
`(0,0), (1,10), (2,20)` evaluated at `t = 1`. -/
theorem C2_get_value_at_time_witness :
    [ControlPoint.mk 0 0, ControlPoint.mk 1 10, ControlPoint.mk 2 20] ≠
        ([] : List ControlPoint) ∧
      List.Pairwise (fun a b : ControlPoint => a.time < b.time)
        [ControlPoint.mk 0 0, ControlPoint.mk 1 10, ControlPoint.mk 2 20] ∧
      get_value_at_time
        [ControlPoint.mk 0 0, ControlPoint.mk 1 10, ControlPoint.mk 2 20] 0 1 = 10 := by
  have hne : [ControlPoint.mk 0 0, ControlPoint.mk 1 10, ControlPoint.mk 2 20] ≠
      ([] : List ControlPoint) := by simp
  have hp : List.Pairwise (fun a b : ControlPoint => a.time < b.time)
      [ControlPoint.mk 0 0, ControlPoint.mk 1 10, ControlPoint.mk 2 20] := by
    norm_num [List.pairwise_cons]
  refine ⟨hne, hp, ?_⟩
  have h := (C2_get_value_at_time
    [ControlPoint.mk 0 0, ControlPoint.mk 1 10, ControlPoint.mk 2 20] 0 1 hne
    hp).2.2.2 0 (ControlPoint.mk 0 0) (ControlPoint.mk 1 10) [ControlPoint.mk 2 20]
    rfl (by norm_num) (by norm_num) (by norm_num [List.getLast])
  exact h

/-! ### Claim C10 -/

theorem overwriteFirst_map_time (l : List ControlPoint) (t v : ℚ) :
    (overwriteFirst l t v).map (fun p => p.time) = l.map (fun p => p.time) := by
  induction l with
  | nil => rfl
  | cons p rest ih =>
      unfold overwriteFirst
      split
      · simp
      · simp [ih]

theorem overwriteFirst_length (l : List ControlPoint) (t v : ℚ) :
    (overwriteFirst l t v).length = l.length := by
  induction l with
  | nil => rfl
  | cons p rest ih =>
      unfold overwriteFirst
      split
      · simp
      · simp [ih]

theorem pairwise_time_of_map_eq {S : ℚ → ℚ → Prop} {l₁ l₂ : List ControlPoint}
    (h : l₁.map (fun p => p.time) = l₂.map (fun p => p.time))
    (hp : List.Pairwise (fun p q : ControlPoint => S p.time q.time) l₂) :
    List.Pairwise (fun p q : ControlPoint => S p.time q.time) l₁ := by
  have h₂ : List.Pairwise S (l₂.map fun p => p.time) := (List.pairwise_map).mpr hp
  rw [← h] at h₂
  exact (List.pairwise_map).mp h₂

/-- Claim C10: the method `add_point` preserves the curve invariant — the control
points stay sorted ascending by time and any two distinct points differ in
time by at least `0.01`; a call whose time is within `0.01` s of an existing
point (in particular, at an already-occupied time) overwrites and never
grows the list. -/
theorem C10_add_point_invariant (pts : List ControlPoint) (t v : ℚ)
    (hsep : List.Pairwise
      (fun p q : ControlPoint => 1 / 100 ≤ |p.time - q.time|) pts)
    (hsort : List.Pairwise (fun p q : ControlPoint => p.time ≤ q.time) pts) :
    List.Pairwise (fun p q : ControlPoint => p.time ≤ q.time) (add_point pts t v) ∧
    List.Pairwise (fun p q : ControlPoint => 1 / 100 ≤ |p.time - q.time|)
      (add_point pts t v) ∧
    ((∃ p ∈ pts, p.time = t) → (add_point pts t v).length = pts.length) := by
  unfold add_point
  by_cases hany : pts.any (fun p => |p.time - t| < 1 / 100)
  · rw [if_pos hany]
    exact ⟨pairwise_time_of_map_eq (S := fun a b => a ≤ b)
        (overwriteFirst_map_time pts t v) hsort,
      pairwise_time_of_map_eq (S := fun a b => 1 / 100 ≤ |a - b|)
        (overwriteFirst_map_time pts t v) hsep,
      fun _ => overwriteFirst_length pts t v⟩
  · rw [if_neg hany]
    have hall : ∀ p ∈ pts, ¬ |p.time - t| < 1 / 100 := by
      intro p hpm hplt
      exact hany (List.any_eq_true.mpr ⟨p, hpm, decide_eq_true hplt⟩)
    have happ : List.Pairwise
        (fun p q : ControlPoint => 1 / 100 ≤ |p.time - q.time|)
        (pts ++ [ControlPoint.mk t v]) := by
      rw [List.pairwise_append]
      refine ⟨hsep, List.pairwise_singleton _ _, ?_⟩
      intro a ha b hb
      rcases List.mem_singleton.mp hb with rfl
      exact not_lt.mp (hall a ha)
    constructor
    · have hs := @List.sorted_mergeSort ControlPoint
        (fun p q : ControlPoint => decide (p.time ≤ q.time))
        (fun a b c h1 h2 => by
          simp only [decide_eq_true_eq] at h1 h2 ⊢
          exact le_trans h1 h2)
        (fun a b => by
          simp only [Bool.or_eq_true, decide_eq_true_eq]
          exact le_total _ _)
        (pts ++ [ControlPoint.mk t v])
      exact hs.imp (fun h => of_decide_eq_true h)
    constructor
    · exact ((List.mergeSort_perm (pts ++ [ControlPoint.mk t v])
        (fun p q => decide (p.time ≤ q.time))).pairwise_iff
        (fun h => by rw [abs_sub_comm]; exact h)).mpr happ
    · rintro ⟨p, hpm, hpt⟩
      exact absurd (by rw [hpt]; simp : |p.time - t| < 1 / 100) (hall p hpm)

/-- Witness for C10: inserting at `t = 90` into the default two-point curve
`(0, 1/2), (180, 1/2)`. -/
theorem C10_add_point_invariant_witness :
    List.Pairwise (fun p q : ControlPoint => 1 / 100 ≤ |p.time - q.time|)
      [ControlPoint.mk 0 (1 / 2), ControlPoint.mk 180 (1 / 2)] ∧
    List.Pairwise (fun p q : ControlPoint => p.time ≤ q.time)
      [ControlPoint.mk 0 (1 / 2), ControlPoint.mk 180 (1 / 2)] ∧
    (List.Pairwise (fun p q : ControlPoint => p.time ≤ q.time)
      (add_point [ControlPoint.mk 0 (1 / 2), ControlPoint.mk 180 (1 / 2)] 90 1) ∧
    List.Pairwise (fun p q : ControlPoint => 1 / 100 ≤ |p.time - q.time|)
      (add_point [ControlPoint.mk 0 (1 / 2), ControlPoint.mk 180 (1 / 2)] 90 1) ∧
    ((∃ p ∈ [ControlPoint.mk 0 (1 / 2), ControlPoint.mk 180 (1 / 2)],
        p.time = 90) →
      (add_point [ControlPoint.mk 0 (1 / 2), ControlPoint.mk 180 (1 / 2)]
        90 1).length =
        ([ControlPoint.mk 0 (1 / 2), ControlPoint.mk 180 (1 / 2)] :
          List ControlPoint).length)) := by
  have hsep : List.Pairwise
      (fun p q : ControlPoint => 1 / 100 ≤ |p.time - q.time|)
      [ControlPoint.mk 0 (1 / 2), ControlPoint.mk 180 (1 / 2)] := by
    norm_num [List.pairwise_cons]
  have hsort : List.Pairwise (fun p q : ControlPoint => p.time ≤ q.time)
      [ControlPoint.mk 0 (1 / 2), ControlPoint.mk 180 (1 / 2)] := by
    norm_num [List.pairwise_cons]
  exact ⟨hsep, hsort,
    C10_add_point_invariant [ControlPoint.mk 0 (1 / 2), ControlPoint.mk 180 (1 / 2)]
      90 1 hsep hsort⟩

/-! ### Claim C5 -/

theorem generate_carrier_succeeds (sr : ℕ) (wt : WaveformType) (freq dur : ℚ)
    (amp : ℝ) (ns : ℕ → ℝ) (h1 : ¬ pyInt ((sr : ℚ) * dur) < 0)
    (h2 : wt = WaveformType.noise → 27 < pyInt ((sr : ℚ) * dur) ∧
      butter_band_low sr freq < butter_band_high sr freq) :
    ∃ lc, generate_carrier sr wt freq dur amp ns = some lc := by
  cases wt with
  | noise =>
      obtain ⟨h27, hband⟩ := h2 rfl
      simp only [generate_carrier]
      rw [if_neg h1, if_pos hband, if_neg (by omega)]
      exact ⟨_, rfl⟩
  | sine =>
      simp only [generate_carrier]
      rw [if_neg h1]
      exact ⟨_, rfl⟩
  | square =>
      simp only [generate_carrier]
      rw [if_neg h1]
      exact ⟨_, rfl⟩
  | triangle =>
      simp only [generate_carrier]
      rw [if_neg h1]
      exact ⟨_, rfl⟩
  | sawtooth =>
      simp only [generate_carrier]
      rw [if_neg h1]
      exact ⟨_, rfl⟩

theorem generate_modulation_succeeds (sr : ℕ) (mt : ModulationType)
    (freq dur duty rp : ℚ) (h1 : ¬ pyInt ((sr : ℚ) * dur) < 0)
    (h2 : mt = ModulationType.trapezoid ∨ mt = ModulationType.gaussian →
      freq ≠ 0 ∧ pyInt ((sr : ℚ) / freq) ≠ 0)
    (h3 : mt = ModulationType.gaussian → 0 < pyInt ((sr : ℚ) / freq) →
      ¬ (duty = 0 ∧ 0 < (pyInt ((sr : ℚ) * dur)).toNat))
    (h4 : mt = ModulationType.trapezoid → 0 < pyInt ((sr : ℚ) / freq) →
      0 ≤ pyInt (((pyInt ((sr : ℚ) / freq)).toNat : ℚ) * rp / 100)) :
    ∃ lm, generate_modulation sr mt freq dur duty rp = some lm := by
  cases mt with
  | square =>
      simp only [generate_modulation]
      rw [if_neg h1]
      exact ⟨_, rfl⟩
  | sine =>
      simp only [generate_modulation]
      rw [if_neg h1]
      exact ⟨_, rfl⟩
  | trapezoid =>
      obtain ⟨hf, hps⟩ := h2 (Or.inl rfl)
      simp only [generate_modulation]
      rw [if_neg h1, if_neg hf, if_neg hps]
      by_cases hlt : pyInt ((sr : ℚ) / freq) < 0
      · rw [if_pos hlt]
        exact ⟨_, rfl⟩
      · have hramp := h4 rfl (by omega)
        rw [if_neg hlt, if_neg (by rintro ⟨hc, _⟩; omega)]
        exact ⟨_, rfl⟩
  | gaussian =>
      obtain ⟨hf, hps⟩ := h2 (Or.inr rfl)
      simp only [generate_modulation]
      rw [if_neg h1, if_neg hf, if_neg hps]
      by_cases hlt : pyInt ((sr : ℚ) / freq) < 0
      · rw [if_pos hlt]
        exact ⟨_, rfl⟩
      · rw [if_neg hlt, if_neg (h3 rfl (by omega))]
        exact ⟨_, rfl⟩

/-- Claim C5: from a state whose cache lacks the parameter tuple's key, a
successful `generate_tone_segment` call adds exactly one cache entry, and an
immediately repeated call with the identical tuple is a cache hit: it returns
the bit-identical buffer and leaves the state (hence the entry count)
unchanged. -/
theorem C5_tone_segment_cache (s : GenState) (duration cf ef vol : ℚ)
    (sr : ℕ) (ct : WaveformType) (mt : ModulationType) (duty : ℚ) (ns : ℕ → ℝ)
    (hfresh : s.cache.find? (fun kv : CacheKey × List ℝ =>
      decide (kv.1 = get_cache_key duration cf ef vol sr ct mt duty)) = none)
    (hok : renderOk duration cf ef sr ct mt duty = true) :
    (generate_tone_segment s duration cf ef vol sr ct mt duty ns).2.cache.length =
      s.cache.length + 1 ∧
    generate_tone_segment
        (generate_tone_segment s duration cf ef vol sr ct mt duty ns).2
        duration cf ef vol sr ct mt duty ns =
      generate_tone_segment s duration cf ef vol sr ct mt duty ns := by
  obtain ⟨ssr, scache⟩ := s
  simp only [renderOk, Bool.and_eq_true, decide_eq_true_eq] at hok
  obtain ⟨⟨⟨⟨h0, hn⟩, hband⟩, hm⟩, hg⟩ := hok
  obtain ⟨lc, hlc⟩ :=
    generate_carrier_succeeds sr ct cf duration 0.8 ns (not_lt.mpr h0)
      (fun h => ⟨hn h, hband h⟩)
  obtain ⟨lm, hlm⟩ := generate_modulation_succeeds sr mt ef duration duty 10
    (not_lt.mpr h0) hm
    (fun hgm hpspos => by
      rintro ⟨hd0, hn0⟩
      exact hg hgm hd0 ⟨hpspos, by omega⟩)
    (fun _ _ => pyInt_nonneg (by positivity))
  have hkey1 : generate_tone_segment ⟨ssr, scache⟩ duration cf ef vol sr ct mt
      duty ns =
      (some (List.zipWith (fun c e => c * e * (vol : ℝ)) lc lm),
        ⟨sr, (get_cache_key duration cf ef vol sr ct mt duty,
          List.zipWith (fun c e => c * e * (vol : ℝ)) lc lm) :: scache⟩) := by
    simp only [generate_tone_segment] at hfresh ⊢
    rw [hfresh, hlc, hlm]
  have hkey2 : generate_tone_segment
      (⟨sr, (get_cache_key duration cf ef vol sr ct mt duty,
        List.zipWith (fun c e => c * e * (vol : ℝ)) lc lm) :: scache⟩ : GenState)
      duration cf ef vol sr ct mt duty ns =
      (some (List.zipWith (fun c e => c * e * (vol : ℝ)) lc lm),
        ⟨sr, (get_cache_key duration cf ef vol sr ct mt duty,
          List.zipWith (fun c e => c * e * (vol : ℝ)) lc lm) :: scache⟩) := by
    simp only [generate_tone_segment]
    rw [List.find?_cons_of_pos _ (by simp)]
  rw [hkey1, hkey2]
  exact ⟨by simp, rfl⟩

/-- Witness for C5: sine carrier, square modulation, 1 s at 44100 Hz from
the empty cache. -/
theorem C5_tone_segment_cache_witness :
    (GenState.mk 44100 []).cache.find? (fun kv : CacheKey × List ℝ =>
      decide (kv.1 = get_cache_key 1 100 10 (1 / 2) 44100 WaveformType.sine
        ModulationType.square (1 / 2))) = none ∧
    renderOk 1 100 10 44100 WaveformType.sine ModulationType.square (1 / 2) =
      true ∧
    ((generate_tone_segment (GenState.mk 44100 []) 1 100 10 (1 / 2) 44100
        WaveformType.sine ModulationType.square (1 / 2)
        (fun _ => 0)).2.cache.length =
      (GenState.mk 44100 []).cache.length + 1 ∧
    generate_tone_segment
        (generate_tone_segment (GenState.mk 44100 []) 1 100 10 (1 / 2) 44100
          WaveformType.sine ModulationType.square (1 / 2) (fun _ => 0)).2
        1 100 10 (1 / 2) 44100 WaveformType.sine ModulationType.square (1 / 2)
        (fun _ => 0) =
      generate_tone_segment (GenState.mk 44100 []) 1 100 10 (1 / 2) 44100
        WaveformType.sine ModulationType.square (1 / 2) (fun _ => 0)) := by
  have hfresh : (GenState.mk 44100 []).cache.find? (fun kv : CacheKey × List ℝ =>
      decide (kv.1 = get_cache_key 1 100 10 (1 / 2) 44100 WaveformType.sine
        ModulationType.square (1 / 2))) = none := rfl
  have hok : renderOk 1 100 10 44100 WaveformType.sine ModulationType.square
      (1 / 2) = true := by
    simp only [renderOk, Bool.and_eq_true, decide_eq_true_eq]
    refine ⟨⟨⟨⟨?_, ?_⟩, ?_⟩, ?_⟩, ?_⟩
    · exact pyInt_nonneg (by norm_num)
    · intro h
      exact nomatch h
    · intro h
      exact nomatch h
    · rintro (h | h) <;> exact nomatch h
    · intro h
      exact nomatch h
  exact ⟨hfresh, hok,
    C5_tone_segment_cache (GenState.mk 44100 []) 1 100 10 (1 / 2) 44100
      WaveformType.sine ModulationType.square (1 / 2) (fun _ => 0) hfresh hok⟩

/-! ### Claim C8 -/

/-- Claim C8 counterexample: a 2-frame stereo background mixed against a
4-sample tone.  `mix_with_background` never averages channels: numpy tiles
the raw `(2, 2)` array along its channel axis to `(2, 4)` and broadcasts the
tone against it, so the result keeps shape `[2, 4]`, while the
spec's convert-to-mono-first pipeline would produce the mono shape `[4]`. -/
theorem C8_counterexample :
    mix_with_background_shape 4 [2, 2] = some [2, 4] ∧
    mix_with_background_spec_monofirst_shape 4 [2, 2] = some [4] ∧
    ([2, 4] : List ℕ) ≠ [4] := by
  have hceil : (⌈((4 : ℕ) : ℚ) / ((2 : ℕ) : ℚ)⌉).toNat = 2 := by
    norm_num
    rfl
  refine ⟨?_, ?_, by simp⟩
  · simp only [mix_with_background_shape]
    rw [if_pos (by norm_num), if_neg (by norm_num), hceil]
    norm_num
  · simp only [mix_with_background_spec_monofirst_shape, mix_with_background_shape]
    rw [if_neg (by norm_num), if_pos (by norm_num), if_neg (by norm_num), hceil]
    norm_num

/-- Claim C8 amended: the function `mix_with_background` performs no mono conversion at
all — whenever it returns a buffer for a 2-D (frames x channels) background,
that buffer is still 2-D (rank 2, never the rank-1 mono shape); the channel
averaging the spec describes is done by callers (for example the timeline
export path) before this function is invoked. -/
theorem C8_amended_no_mono_conversion (tl r c : ℕ) :
    ∀ s, mix_with_background_shape tl [r, c] = some s → s.length = 2 := by
  intro s h
  simp only [mix_with_background_shape] at h
  have hX : (if r < tl then
        if r = 0 then none
        else some [min r tl, c * (⌈(tl : ℚ) / (r : ℚ)⌉).toNat]
      else if tl < r then some [tl, c] else some [r, c]) = none ∨
      ∃ a b : ℕ, (if r < tl then
        if r = 0 then none
        else some [min r tl, c * (⌈(tl : ℚ) / (r : ℚ)⌉).toNat]
      else if tl < r then some [tl, c] else some [r, c]) = some [a, b] := by
    split
    · split
      · exact Or.inl rfl
      · exact Or.inr ⟨_, _, rfl⟩
    · split
      · exact Or.inr ⟨_, _, rfl⟩
      · exact Or.inr ⟨_, _, rfl⟩
  rcases hX with hX | ⟨a, b, hX⟩
  · rw [hX] at h
    exact absurd h (by simp)
  · rw [hX] at h
    dsimp only at h
    rw [Option.ite_none_right_eq_some, Option.ite_none_left_eq_some] at h
    obtain ⟨_, _, hs⟩ := h
    obtain rfl := Option.some.inj hs
    rfl

/-- Witness for the amended C8 at the concrete stereo background of the
counterexample. -/
theorem C8_amended_no_mono_conversion_witness :
    mix_with_background_shape 4 [2, 2] = some [2, 4] ∧
      ([2, 4] : List ℕ).length = 2 := by
  have h : mix_with_background_shape 4 [2, 2] = some [2, 4] := by
    have hceil : (⌈((4 : ℕ) : ℚ) / ((2 : ℕ) : ℚ)⌉).toNat = 2 := by
      norm_num
      rfl
    simp only [mix_with_background_shape]
    rw [if_pos (by norm_num), if_neg (by norm_num), hceil]
    norm_num
  exact ⟨h, C8_amended_no_mono_conversion 4 2 2 [2, 4] h⟩

end IsoFlicker
